import Mathlib

/-! Verification development for the C-BMP_Lib BMP image library.  The
definitions below are a shallow embedding of src/bmap.c: machine integers
become Nat or Int with explicit truncation where the C code truncates, the
byte stream of a file becomes a List Nat of byte values, NULL pointers become
Option, and for loops become the structural recursion in loop below. -/

/-- A bounded counting loop: iterations 0, 1, ..., n-1 applied in order, with
iteration n-1 performed last.  Models a C loop for (int i = 0; i < n; i++). -/
def loop {α : Type} (n : Nat) (f : Nat → α → α) (a : α) : α :=
  match n with
  | 0 => a
  | m + 1 => f m (loop m f a)

/-- Sequential emission of n blocks to an output stream: a counting loop whose
body appends the bytes or pixels produced by iteration i. -/
def appendBlocks {α : Type} (B : Nat → List α) (n : Nat) : List α :=
  loop n (fun i acc => acc ++ B i) []

/-- The Pixel struct of bmap.h: three uint8_t channels stored in
blue, green, red order. -/
structure Pixel where
  blue : Nat
  green : Nat
  red : Nat
deriving DecidableEq, Repr

/-- The local Pixel black = \x7b0, 0, 0\x7d of bmp_get_pixel. -/
def black : Pixel := ⟨0, 0, 0⟩

/-- The BMPImage struct of bmap.h: int width, int height, and a Pixel pointer
that may be NULL (modelled by Option). -/
structure BMPImage where
  width : Int
  height : Int
  data : Option (List Pixel)
deriving DecidableEq, Repr

/-- The BMPError enum of bmap.h. -/
inductive BMPError where
  | BMP_SUCCESS
  | BMP_ERR_FILE_NOT_FOUND
  | BMP_ERR_INVALID_FORMAT
  | BMP_ERR_MALLOC_FAILED
deriving DecidableEq, Repr

/-- calculate_padding from bmap.c: (4 - (width * sizeof(Pixel)) % 4) % 4 with
sizeof(Pixel) = 3.  For the nonnegative widths the claims quantify over, the
C size_t arithmetic agrees with Int arithmetic with Euclidean mod. -/
def calculate_padding (width : Int) : Int :=
  (4 - (width * 3) % 4) % 4

/-- Little-endian byte serialization of a uint16_t value. -/
def le16 (v : Nat) : List Nat :=
  [v % 256, v / 256 % 256]

/-- Little-endian byte serialization of a uint32_t value. -/
def le32 (v : Nat) : List Nat :=
  [v % 256, v / 256 % 256, v / 65536 % 256, v / 16777216 % 256]

/-- Little-endian byte serialization of an int32_t value (two-complement). -/
def le32i (v : Int) : List Nat :=
  le32 (v % 4294967296).toNat

/-- Reading a uint16_t little-endian at a byte offset of the stream, as fread
into a packed struct field does.  Bytes past the end of the stream read as 0
(the C code never checks the fread return value; the claims only quantify over
streams long enough that this default is not observable). -/
def rd16 (bs : List Nat) (pos : Nat) : Nat :=
  bs.getD pos 0 + 256 * bs.getD (pos + 1) 0

/-- Reading a uint32_t little-endian at a byte offset of the stream. -/
def rd32 (bs : List Nat) (pos : Nat) : Nat :=
  bs.getD pos 0 + 256 * bs.getD (pos + 1) 0 + 65536 * bs.getD (pos + 2) 0 +
    16777216 * bs.getD (pos + 3) 0

/-- Reading an int32_t little-endian at a byte offset (two-complement). -/
def rd32i (bs : List Nat) (pos : Nat) : Int :=
  let n := rd32 bs pos
  if n < 2147483648 then (n : Int) else (n : Int) - 4294967296

/-- The three bytes of one packed Pixel as fwrite emits them. -/
def pixelBytes (p : Pixel) : List Nat :=
  [p.blue, p.green, p.red]

/-- One packed Pixel as fread reads it at a byte offset of the stream. -/
def readPixel (bs : List Nat) (pos : Nat) : Pixel :=
  ⟨bs.getD pos 0, bs.getD (pos + 1) 0, bs.getD (pos + 2) 0⟩

/-- One scanline of W pixels read by fread(&img->data[i*w], sizeof(Pixel), w, f)
starting at byte position pos. -/
def readRow (bs : List Nat) (pos : Nat) (W : Nat) : List Pixel :=
  appendBlocks (fun j => [readPixel bs (pos + 3 * j)]) W

/-- The pixel-reading loop of bmp_load: height rows; each fread advances the
position by 3*W bytes and the following fseek(f, padding, SEEK_CUR) skips the
row padding, so row i starts at offset + i * (3*W + pad). -/
def bmp_load_data (bs : List Nat) (offset : Nat) (W H pad : Nat) : List Pixel :=
  appendBlocks (fun i => readRow bs (offset + i * (3 * W + pad)) W) H

/-- The bytes of one scanline written by bmp_save: the fwrite of W packed
pixels data[i*W], ..., data[i*W + W - 1] followed by the fwrite of pad zero
padding bytes. -/
def bmp_save_row (buf : List Pixel) (W pad i : Nat) : List Nat :=
  appendBlocks (fun j => pixelBytes (buf.getD (i * W + j) black)) W ++
    List.replicate pad 0

/-- The row-writing loop of bmp_save. -/
def bmp_save_pixel_data (buf : List Pixel) (W pad H : Nat) : List Nat :=
  appendBlocks (fun i => bmp_save_row buf W pad i) H

/-- The local uint32_t image_size of bmp_save:
(width * sizeof(Pixel) + padding) * height, truncated to 32 bits. -/
def save_image_size (image : BMPImage) : Nat :=
  (image.width.toNat * 3 + (calculate_padding image.width).toNat) *
    image.height.toNat % 4294967296

/-- The 54 header bytes written by bmp_save: the packed BMPFileHeader
(type 0x4D42 = 19778, size 54 + image_size, two reserved zeros, offset 54)
followed by the packed BMPInfoHeader (size 40, width, height, 1 plane,
24 bits per pixel, compression 0, image_size, 2835 pixels per meter both ways,
0 colors used, 0 colors important). -/
def bmp_save_headers (image : BMPImage) : List Nat :=
  le16 19778 ++ le32 ((54 + save_image_size image) % 4294967296) ++ le16 0 ++
    le16 0 ++ le32 54 ++
    le32 40 ++ le32i image.width ++ le32i image.height ++ le16 1 ++ le16 24 ++
    le32 0 ++ le32 (save_image_size image) ++ le32i 2835 ++ le32i 2835 ++
    le32 0 ++ le32 0

/-- bmp_save from bmap.c, on the path where fopen succeeds: the byte stream it
writes, namely both headers followed by the padded pixel rows.  A NULL data
pointer would be dereferenced by the C code; the model reads it as an empty
buffer, and every claim about bmp_save supplies a non-NULL buffer. -/
def bmp_save (image : BMPImage) : List Nat :=
  bmp_save_headers image ++
    bmp_save_pixel_data (image.data.getD []) image.width.toNat
      (calculate_padding image.width).toNat image.height.toNat

/-- Outcome of one call to bmp_load: either the function returns (an optional
image pointer together with the error code stored through err_out), or it
reaches an fread on a NULL FILE pointer, which is undefined behavior in C. -/
inductive LoadResult where
  | returned (img : Option BMPImage) (err : BMPError)
  | undefinedRead (err : BMPError)
deriving DecidableEq, Repr

/-- bmp_load from bmap.c.  The argument is the opened byte source, or none when
fopen fails.  When fopen fails the C code stores BMP_ERR_FILE_NOT_FOUND but is
missing a return statement, so it falls through to fread(&fh, ..., NULL): the
model records this as an undefinedRead outcome.  On an opened stream it reads
both headers, validates the magic and the bit count, takes the absolute value
of the height, computes the padding, seeks to the stored pixel offset and
reads the rows (allocation is assumed to succeed, so the
BMP_ERR_MALLOC_FAILED path is not modelled). -/
def bmp_load (src : Option (List Nat)) : LoadResult :=
  match src with
  | none => .undefinedRead .BMP_ERR_FILE_NOT_FOUND
  | some bs =>
    if rd16 bs 0 ≠ 19778 ∨ rd16 bs 28 ≠ 24 then
      .returned none .BMP_ERR_INVALID_FORMAT
    else
      let width : Int := rd32i bs 18
      let height : Int := |rd32i bs 22|
      let padding : Nat := (calculate_padding width).toNat
      .returned
        (some { width := width, height := height,
                data := some (bmp_load_data bs (rd32 bs 10) width.toNat
                  height.toNat padding) })
        .BMP_SUCCESS

/-- bmp_get_pixel from bmap.c: NULL image, NULL data or out-of-range
coordinates yield the black sentinel; otherwise the pixel at y*width + x. -/
def bmp_get_pixel (image : Option BMPImage) (x y : Int) : Pixel :=
  match image with
  | none => black
  | some img =>
    match img.data with
    | none => black
    | some data =>
      if x < 0 ∨ img.width ≤ x ∨ y < 0 ∨ img.height ≤ y then black
      else data.getD (y * img.width + x).toNat black

/-- bmp_set_pixel from bmap.c: NULL image, NULL data or out-of-range
coordinates leave the image untouched; otherwise the element at y*width + x is
overwritten.  The returned value is the state of the pointed-to image after
the call. -/
def bmp_set_pixel (image : Option BMPImage) (x y : Int) (color : Pixel) :
    Option BMPImage :=
  match image with
  | none => none
  | some img =>
    match img.data with
    | none => some img
    | some data =>
      if x < 0 ∨ img.width ≤ x ∨ y < 0 ∨ img.height ≤ y then some img
      else some { img with data := some (data.set (y * img.width + x).toNat color) }

/-- The double loop of bmp_rotate_right building the freshly allocated buffer
of new_width * new_height = H * W pixels: destination j * H + (H - 1 - i)
receives source i * W + j.  W and H are the old width and height. -/
def rotate_data (W H : Nat) (buf : List Pixel) : List Pixel :=
  loop H
    (fun i acc =>
      loop W
        (fun j acc2 =>
          acc2.set (j * H + (H - 1 - i)) (buf.getD (i * W + j) black))
        acc)
    (List.replicate (H * W) black)

/-- bmp_rotate_right from bmap.c: NULL image or NULL data returns with no
change; otherwise the new buffer replaces the old one and the dimensions are
swapped (new_width = old height, new_height = old width).  The malloc failure
early return is not modelled: allocation is assumed to succeed. -/
def bmp_rotate_right (image : Option BMPImage) : Option BMPImage :=
  match image with
  | none => none
  | some img =>
    match img.data with
    | none => some img
    | some buf =>
      some { width := img.height, height := img.width,
             data := some (rotate_data img.width.toNat img.height.toNat buf) }

/-- The body of the bmp_grayscale loop on one pixel: uint8_t avg =
(red + green + blue) / 3 stored into all three channels.  The uint8_t store
truncates mod 256; for channels below 256 the average is below 256 and the
truncation is invisible. -/
def grayPixel (p : Pixel) : Pixel :=
  let avg := (p.red + p.green + p.blue) / 3 % 256
  ⟨avg, avg, avg⟩

/-- bmp_grayscale from bmap.c: NULL image or NULL data is a no-op; otherwise a
single loop over height * width indices replaces each pixel in place. -/
def bmp_grayscale (image : Option BMPImage) : Option BMPImage :=
  match image with
  | none => none
  | some img =>
    match img.data with
    | none => some img
    | some buf =>
      some { img with
             data := some (loop (img.height * img.width).toNat
               (fun i acc => acc.set i (grayPixel (acc.getD i black))) buf) }

/-! Claims C2, C3, C6, C8, C9: direct consequences of the definitions. -/

/-- Claim C8: for every nonnegative width w the computed per-row padding p
equals (4 - (w*3) mod 4) mod 4, satisfies 0 <= p <= 3 and (w*3 + p) mod 4 = 0.
Both bmp_load and bmp_save compute their padding by calling this very
calculate_padding (visible in their definitions). -/
theorem padding_law (w : Int) (hw : 0 ≤ w) :
    calculate_padding w = (4 - (w * 3) % 4) % 4 ∧
    0 ≤ calculate_padding w ∧ calculate_padding w ≤ 3 ∧
    (w * 3 + calculate_padding w) % 4 = 0 := by
  refine ⟨rfl, ?_, ?_, ?_⟩ <;> (unfold calculate_padding; omega)

/-- Witness for padding_law at w = 5: padding 1 completes 15 bytes to 16. -/
theorem padding_law_witness :
    (0 : Int) ≤ 5 ∧
      (calculate_padding 5 = (4 - (5 * 3) % 4) % 4 ∧
       0 ≤ calculate_padding 5 ∧ calculate_padding 5 ≤ 3 ∧
       ((5 : Int) * 3 + calculate_padding 5) % 4 = 0) :=
  ⟨by decide, padding_law 5 (by decide)⟩

/-- Claim C2 (code bug witness): when fopen fails, bmp_load stores
BMP_ERR_FILE_NOT_FOUND but, lacking a return statement, falls through to
fread on the NULL stream instead of returning NULL with no further reads. -/
theorem load_open_fail_reads_null_stream :
    bmp_load none = LoadResult.undefinedRead BMPError.BMP_ERR_FILE_NOT_FOUND :=
  rfl

/-- Claim C3: an opened byte source whose magic is not 0x4D42 = 19778 or whose
bits-per-pixel field is not 24 makes bmp_load return NULL with
BMP_ERR_INVALID_FORMAT, before any image is allocated. -/
theorem load_invalid_format (bs : List Nat) (hlen : 54 ≤ bs.length)
    (hbad : rd16 bs 0 ≠ 19778 ∨ rd16 bs 28 ≠ 24) :
    bmp_load (some bs) = LoadResult.returned none BMPError.BMP_ERR_INVALID_FORMAT := by
  simp only [bmp_load]
  rw [if_pos hbad]

/-- Witness for load_invalid_format on a 54-byte all-zero stream. -/
theorem load_invalid_format_witness :
    bmp_load (some (List.replicate 54 0)) =
      LoadResult.returned none BMPError.BMP_ERR_INVALID_FORMAT :=
  load_invalid_format (List.replicate 54 0) (by decide) (Or.inl (by decide))

/-- Claim C6: out-of-range coordinates make bmp_get_pixel return the black
sentinel and bmp_set_pixel leave the image (width, height and buffer) exactly
as it was; in-bounds access indexes the buffer at y * width + x. -/
theorem pixel_access_bounds (img : BMPImage) (x y : Int) (c : Pixel) :
    ((x < 0 ∨ img.width ≤ x ∨ y < 0 ∨ img.height ≤ y) →
      bmp_get_pixel (some img) x y = black ∧
      bmp_set_pixel (some img) x y c = some img) ∧
    (∀ buf, img.data = some buf →
      ¬(x < 0 ∨ img.width ≤ x ∨ y < 0 ∨ img.height ≤ y) →
      bmp_get_pixel (some img) x y = buf.getD (y * img.width + x).toNat black) := by
  constructor
  · intro hoob
    cases hd : img.data with
    | none => exact ⟨by simp [bmp_get_pixel, hd], by simp [bmp_set_pixel, hd]⟩
    | some buf =>
      exact ⟨by simp [bmp_get_pixel, hd, if_pos hoob],
             by simp [bmp_set_pixel, hd, if_pos hoob]⟩
  · intro buf hd hin
    simp [bmp_get_pixel, hd, if_neg hin]

/-- Witness for pixel_access_bounds: a 1 by 1 image probed at x = -1 (out of
bounds) and at the origin (in bounds). -/
theorem pixel_access_bounds_witness :
    (bmp_get_pixel (some ⟨1, 1, some [⟨9, 9, 9⟩]⟩) (-1) 0 = black ∧
     bmp_set_pixel (some ⟨1, 1, some [⟨9, 9, 9⟩]⟩) (-1) 0 black =
       some ⟨1, 1, some [⟨9, 9, 9⟩]⟩) ∧
    bmp_get_pixel (some ⟨1, 1, some [⟨9, 9, 9⟩]⟩) 0 0 =
      List.getD [(⟨9, 9, 9⟩ : Pixel)] ((0 : Int) * 1 + 0).toNat black :=
  ⟨(pixel_access_bounds ⟨1, 1, some [⟨9, 9, 9⟩]⟩ (-1) 0 black).1
      (Or.inl (by decide)),
   (pixel_access_bounds ⟨1, 1, some [⟨9, 9, 9⟩]⟩ 0 0 black).2
      [⟨9, 9, 9⟩] rfl (by decide)⟩

/-- Claim C9: a NULL image pointer or a NULL pixel buffer makes bmp_get_pixel
return black for every coordinate pair and makes bmp_set_pixel a no-op for
every coordinate pair and color. -/
theorem pixel_access_null (img : BMPImage) (x y : Int) (c : Pixel) :
    (bmp_get_pixel none x y = black ∧ bmp_set_pixel none x y c = none) ∧
    (img.data = none →
      bmp_get_pixel (some img) x y = black ∧
      bmp_set_pixel (some img) x y c = some img) := by
  refine ⟨⟨rfl, rfl⟩, fun hd => ⟨?_, ?_⟩⟩
  · simp [bmp_get_pixel, hd]
  · simp [bmp_set_pixel, hd]

/-- Witness for pixel_access_null on an image with a NULL buffer. -/
theorem pixel_access_null_witness :
    bmp_get_pixel (some ⟨3, 3, none⟩) 1 1 = black ∧
    bmp_set_pixel (some ⟨3, 3, none⟩) 1 1 black = some ⟨3, 3, none⟩ :=
  (pixel_access_null ⟨3, 3, none⟩ 1 1 black).2 rfl

/-! Helper lemmas: index arithmetic and generic loop facts. -/

/-- The flat index y * w + x of an in-bounds coordinate pair lies inside a
buffer of w * h pixels. -/
theorem index_toNat_lt (w h x y : Int) (hx0 : 0 ≤ x) (hxw : x < w)
    (hy0 : 0 ≤ y) (hyh : y < h) :
    (y * w + x).toNat < w.toNat * h.toNat := by
  have hw : 0 < w := lt_of_le_of_lt hx0 hxw
  have hh : 0 < h := lt_of_le_of_lt hy0 hyh
  have h2 : y * w + w ≤ h * w := by
    have h3 : (y + 1) * w ≤ h * w :=
      mul_le_mul_of_nonneg_right (by omega) (by omega)
    calc y * w + w = (y + 1) * w := by ring
    _ ≤ h * w := h3
  have h4 : ((w.toNat * h.toNat : Nat) : Int) = h * w := by
    push_cast
    rw [Int.toNat_of_nonneg hw.le, Int.toNat_of_nonneg hh.le, mul_comm]
  have h5 : 0 ≤ y * w := mul_nonneg hy0 hw.le
  omega

/-- A loop whose body preserves the length of the list preserves it overall. -/
theorem loop_length {α : Type} (n : Nat) (f : Nat → List α → List α)
    (hf : ∀ i l, (f i l).length = l.length) (acc : List α) :
    (loop n f acc).length = acc.length := by
  induction n with
  | zero => rfl
  | succ m ih => simp only [loop]; rw [hf, ih]

/-! Claim C10: in-bounds bmp_set_pixel is a point update. -/

/-- Claim C10: for in-bounds coordinates, bmp_set_pixel rewrites only the
buffer element at index y * width + x, leaves width, height and all other
elements unchanged, and a following bmp_get_pixel at the same coordinates
returns exactly the written color. -/
theorem set_pixel_frame (img : BMPImage) (buf : List Pixel) (x y : Int)
    (c : Pixel) (hdata : img.data = some buf) (hx0 : 0 ≤ x)
    (hxw : x < img.width) (hy0 : 0 ≤ y) (hyh : y < img.height)
    (hlen : buf.length = img.width.toNat * img.height.toNat) :
    bmp_set_pixel (some img) x y c =
      some { img with data := some (buf.set (y * img.width + x).toNat c) } ∧
    (∀ k, k ≠ (y * img.width + x).toNat →
      (buf.set (y * img.width + x).toNat c).getD k black = buf.getD k black) ∧
    bmp_get_pixel (bmp_set_pixel (some img) x y c) x y = c := by
  have hin : ¬(x < 0 ∨ img.width ≤ x ∨ y < 0 ∨ img.height ≤ y) := by omega
  have hidx : (y * img.width + x).toNat < buf.length := by
    rw [hlen]; exact index_toNat_lt _ _ _ _ hx0 hxw hy0 hyh
  have h1 : bmp_set_pixel (some img) x y c =
      some { img with data := some (buf.set (y * img.width + x).toNat c) } := by
    simp [bmp_set_pixel, hdata, if_neg hin]
  refine ⟨h1, ?_, ?_⟩
  · intro k hk
    simp [List.getD_eq_getElem?_getD, List.getElem?_set_ne (Ne.symm hk)]
  · rw [h1]
    simp only [bmp_get_pixel, if_neg hin]
    rw [List.getD_eq_getElem?_getD, List.getElem?_set_self hidx]
    rfl

/-- Witness for set_pixel_frame: writing pixel (1,0) of a 2 by 2 image. -/
theorem set_pixel_frame_witness :
    bmp_set_pixel (some ⟨2, 2, some [black, black, black, black]⟩) 1 0 ⟨7, 8, 9⟩ =
      some ⟨2, 2, some ([black, black, black, black].set
        ((0 : Int) * 2 + 1).toNat ⟨7, 8, 9⟩)⟩ ∧
    (∀ k, k ≠ ((0 : Int) * 2 + 1).toNat →
      ([black, black, black, black].set ((0 : Int) * 2 + 1).toNat
        (⟨7, 8, 9⟩ : Pixel)).getD k black =
      [black, black, black, black].getD k black) ∧
    bmp_get_pixel (bmp_set_pixel
      (some ⟨2, 2, some [black, black, black, black]⟩) 1 0 ⟨7, 8, 9⟩) 1 0 =
      ⟨7, 8, 9⟩ :=
  set_pixel_frame ⟨2, 2, some [black, black, black, black]⟩
    [black, black, black, black] 1 0 ⟨7, 8, 9⟩ rfl (by decide) (by decide)
    (by decide) (by decide) (by decide)

/-! Claim C7: grayscale replaces each pixel by its channel average and is
idempotent. -/

/-- Pointwise description of the in-place grayscale loop after n iterations:
indices below n hold the averaged pixel, the rest are untouched. -/
theorem gray_loop_getD (buf : List Pixel) :
    ∀ n : Nat, n ≤ buf.length → ∀ k : Nat,
      (loop n (fun i acc => acc.set i (grayPixel (acc.getD i black))) buf).getD
          k black =
        if k < n then grayPixel (buf.getD k black) else buf.getD k black := by
  intro n
  induction n with
  | zero => intro _ k; simp [loop]
  | succ m ih =>
    intro hm k
    have hlen2 : (loop m (fun i acc => acc.set i (grayPixel (acc.getD i black)))
        buf).length = buf.length :=
      loop_length _ _ (fun i l => List.length_set ..) buf
    simp only [loop]
    have hread : (loop m (fun i acc => acc.set i (grayPixel (acc.getD i black)))
        buf).getD m black = buf.getD m black := by
      rw [ih (by omega) m]; simp
    by_cases hk : k = m
    · subst hk
      rw [List.getD_eq_getElem?_getD,
        List.getElem?_set_self (by rw [hlen2]; omega), hread]
      simp
    · rw [List.getD_eq_getElem?_getD,
        List.getElem?_set_ne (fun h => hk h.symm),
        ← List.getD_eq_getElem?_getD, ih (by omega) k]
      by_cases h2 : k < m
      · rw [if_pos h2, if_pos (by omega)]
      · rw [if_neg h2, if_neg (by omega)]

/-- Running the grayscale loop over the whole buffer is a map. -/
theorem gray_loop_eq_map (buf : List Pixel) :
    loop buf.length (fun i acc => acc.set i (grayPixel (acc.getD i black)))
      buf = buf.map grayPixel := by
  apply List.ext_getElem
  · rw [loop_length _ _ (fun i l => List.length_set ..), List.length_map]
  · intro n h1 h2
    have hlb : n < buf.length := by simpa using h2
    calc (loop buf.length
          (fun i acc => acc.set i (grayPixel (acc.getD i black))) buf)[n]
        = (loop buf.length
            (fun i acc => acc.set i (grayPixel (acc.getD i black)))
            buf).getD n black := (List.getD_eq_getElem _ black h1).symm
      _ = grayPixel (buf.getD n black) := by
          rw [gray_loop_getD buf buf.length le_rfl n, if_pos hlb]
      _ = grayPixel buf[n] := by rw [List.getD_eq_getElem _ black hlb]
      _ = (buf.map grayPixel)[n] := (List.getElem_map ..).symm

/-- Averaging the three channels is an idempotent pixel operation. -/
theorem grayPixel_idem (p : Pixel) : grayPixel (grayPixel p) = grayPixel p := by
  unfold grayPixel
  simp only
  congr 1 <;> omega

/-- Claim C7: bmp_grayscale replaces every pixel by the truncating integer
average of its channels (stored through a uint8_t, invisible for channel
values below 256), and applying it twice equals applying it once. -/
theorem grayscale_spec (img : BMPImage) (buf : List Pixel)
    (hdata : img.data = some buf)
    (hlen : buf.length = (img.height * img.width).toNat) :
    bmp_grayscale (some img) = some { img with data := some (buf.map grayPixel) } ∧
    bmp_grayscale (bmp_grayscale (some img)) = bmp_grayscale (some img) ∧
    (∀ p : Pixel, p.blue < 256 → p.green < 256 → p.red < 256 →
      grayPixel p = ⟨(p.red + p.green + p.blue) / 3,
        (p.red + p.green + p.blue) / 3, (p.red + p.green + p.blue) / 3⟩) := by
  have h1 : bmp_grayscale (some img) =
      some { img with data := some (buf.map grayPixel) } := by
    simp only [bmp_grayscale, hdata]
    rw [← hlen, gray_loop_eq_map]
  refine ⟨h1, ?_, ?_⟩
  · rw [h1]
    have h2 : bmp_grayscale (some { img with data := some (buf.map grayPixel) }) =
        some { img with data := some ((buf.map grayPixel).map grayPixel) } := by
      simp only [bmp_grayscale]
      rw [show ((img.height * img.width).toNat) = (buf.map grayPixel).length by
            rw [List.length_map, hlen],
          gray_loop_eq_map]
    rw [h2, List.map_map]
    have h3 : grayPixel ∘ grayPixel = grayPixel := funext grayPixel_idem
    rw [h3]
  · intro p hb hg hr
    unfold grayPixel
    simp only
    congr 1 <;> omega

/-- Witness for grayscale_spec on a 1 by 2 image. -/
theorem grayscale_spec_witness :
    bmp_grayscale (some ⟨2, 1, some [⟨10, 20, 30⟩, ⟨0, 0, 255⟩]⟩) =
      some ⟨2, 1, some ([⟨10, 20, 30⟩, ⟨0, 0, 255⟩].map grayPixel)⟩ ∧
    bmp_grayscale (bmp_grayscale (some ⟨2, 1, some [⟨10, 20, 30⟩, ⟨0, 0, 255⟩]⟩)) =
      bmp_grayscale (some ⟨2, 1, some [⟨10, 20, 30⟩, ⟨0, 0, 255⟩]⟩) ∧
    (∀ p : Pixel, p.blue < 256 → p.green < 256 → p.red < 256 →
      grayPixel p = ⟨(p.red + p.green + p.blue) / 3,
        (p.red + p.green + p.blue) / 3, (p.red + p.green + p.blue) / 3⟩) :=
  grayscale_spec ⟨2, 1, some [⟨10, 20, 30⟩, ⟨0, 0, 255⟩]⟩
    [⟨10, 20, 30⟩, ⟨0, 0, 255⟩] rfl (by decide)

/-! Claims C4 and C5: the 90 degree clockwise rotation. -/

/-- Division decomposition a * H + r with r < H is unique. -/
theorem mulAdd_inj (H a r b s : Nat) (hH : 0 < H) (hr : r < H) (hs : s < H)
    (h : a * H + r = b * H + s) : a = b ∧ r = s := by
  have h1 : (a * H + r) % H = r := by
    rw [Nat.mul_comm a H, Nat.mul_add_mod]
    exact Nat.mod_eq_of_lt hr
  have h2 : (b * H + s) % H = s := by
    rw [Nat.mul_comm b H, Nat.mul_add_mod]
    exact Nat.mod_eq_of_lt hs
  have hrs : r = s := by rw [← h1, ← h2, h]
  refine ⟨?_, hrs⟩
  have h3 : a * H = b * H := by omega
  exact Nat.eq_of_mul_eq_mul_right hH h3

/-- After the inner rotation loop has written columns 0..n-1 of source row i,
the destination cell of any written column j0 holds its source pixel. -/
theorem rot_inner_hit (buf : List Pixel) (W H i : Nat) (hH : 0 < H) :
    ∀ (n : Nat) (acc : List Pixel) (j0 : Nat), j0 < n →
      j0 * H + (H - 1 - i) < acc.length →
      (loop n (fun j acc2 => acc2.set (j * H + (H - 1 - i))
          (buf.getD (i * W + j) black)) acc).getD (j0 * H + (H - 1 - i)) black =
        buf.getD (i * W + j0) black := by
  intro n
  induction n with
  | zero => intro acc j0 h; omega
  | succ m ih =>
    intro acc j0 hj0 hlt
    have hlen2 : (loop m (fun j acc2 => acc2.set (j * H + (H - 1 - i))
        (buf.getD (i * W + j) black)) acc).length = acc.length :=
      loop_length _ _ (fun a l => List.length_set ..) acc
    simp only [loop]
    by_cases hj : j0 = m
    · subst hj
      rw [List.getD_eq_getElem?_getD,
        List.getElem?_set_self (by rw [hlen2]; exact hlt)]
      rfl
    · have hne : m * H + (H - 1 - i) ≠ j0 * H + (H - 1 - i) := by
        intro heq
        have h3 : m * H = j0 * H := by omega
        exact hj (Nat.eq_of_mul_eq_mul_right hH h3).symm
      rw [List.getD_eq_getElem?_getD, List.getElem?_set_ne hne,
        ← List.getD_eq_getElem?_getD]
      exact ih acc j0 (by omega) hlt

/-- The inner rotation loop does not touch cells outside its write set. -/
theorem rot_inner_miss (buf : List Pixel) (W H i : Nat) :
    ∀ (n : Nat) (acc : List Pixel) (k : Nat),
      (∀ j, j < n → k ≠ j * H + (H - 1 - i)) →
      (loop n (fun j acc2 => acc2.set (j * H + (H - 1 - i))
          (buf.getD (i * W + j) black)) acc).getD k black = acc.getD k black := by
  intro n
  induction n with
  | zero => intro acc k _; rfl
  | succ m ih =>
    intro acc k hk
    simp only [loop]
    rw [List.getD_eq_getElem?_getD,
      List.getElem?_set_ne (fun h => hk m (Nat.lt_succ_self m) h.symm),
      ← List.getD_eq_getElem?_getD]
    exact ih acc k (fun j hj => hk j (by omega))

/-- The rotated buffer has new_width * new_height = H * W cells. -/
theorem rotate_data_length (W H : Nat) (buf : List Pixel) :
    (rotate_data W H buf).length = H * W := by
  unfold rotate_data
  rw [loop_length _ _ (fun a l =>
      loop_length _ _ (fun b l2 => List.length_set ..) l) _,
    List.length_replicate]

/-- The defining property of the rotation: destination j * H + (H - 1 - i)
holds source pixel i * W + j. -/
theorem rotate_data_getD (W H : Nat) (buf : List Pixel) (i j : Nat)
    (hi : i < H) (hj : j < W) :
    (rotate_data W H buf).getD (j * H + (H - 1 - i)) black =
      buf.getD (i * W + j) black := by
  have hH : 0 < H := by omega
  suffices hgen : ∀ (n : Nat), n ≤ H → ∀ (acc : List Pixel),
      acc.length = H * W → ∀ i0, i0 < n →
      (loop n (fun i2 acc2 => loop W (fun j2 acc3 =>
          acc3.set (j2 * H + (H - 1 - i2)) (buf.getD (i2 * W + j2) black)) acc2)
        acc).getD (j * H + (H - 1 - i0)) black = buf.getD (i0 * W + j) black by
    unfold rotate_data
    exact hgen H le_rfl (List.replicate (H * W) black)
      (List.length_replicate ..) i hi
  intro n
  induction n with
  | zero => intro _ acc _ i0 h; omega
  | succ m ih =>
    intro hm acc hacc i0 hi0
    have hlenm : (loop m (fun i2 acc2 => loop W (fun j2 acc3 =>
        acc3.set (j2 * H + (H - 1 - i2)) (buf.getD (i2 * W + j2) black)) acc2)
        acc).length = H * W := by
      rw [loop_length _ _ (fun a l =>
          loop_length _ _ (fun b l2 => List.length_set ..) l) acc, hacc]
    simp only [loop]
    by_cases hcase : i0 = m
    · subst hcase
      have hb : j * H + (H - 1 - i0) < H * W := by
        have h6 : (j + 1) * H ≤ W * H := Nat.mul_le_mul_right H (by omega)
        have h7 : (j + 1) * H = j * H + H := by rw [Nat.add_mul, Nat.one_mul]
        have h8 : W * H = H * W := Nat.mul_comm W H
        omega
      exact rot_inner_hit buf W H i0 hH W _ j hj (by rw [hlenm]; exact hb)
    · have hne : ∀ j2, j2 < W → j * H + (H - 1 - i0) ≠ j2 * H + (H - 1 - m) := by
        intro j2 hj2 heq
        obtain ⟨he1, he2⟩ := mulAdd_inj H j (H - 1 - i0) j2 (H - 1 - m) hH
          (by omega) (by omega) heq
        exact hcase (by omega)
      rw [rot_inner_miss buf W H m W _ (j * H + (H - 1 - i0)) hne]
      exact ih (by omega) acc hacc i0 (by omega)

/-- Claim C4: bmp_rotate_right swaps the dimensions (new width = old height,
new height = old width) and sends the pixel at old index i * oldWidth + j to
new index j * newWidth + (oldHeight - 1 - i); on the 2 by 2 image
[p0, p1, p2, p3] this produces [p2, p0, p3, p1]. -/
theorem rotate_right_spec (img : BMPImage) (buf : List Pixel)
    (hdata : img.data = some buf) :
    bmp_rotate_right (some img) =
      some ⟨img.height, img.width,
        some (rotate_data img.width.toNat img.height.toNat buf)⟩ ∧
    (∀ i j, i < img.height.toNat → j < img.width.toNat →
      (rotate_data img.width.toNat img.height.toNat buf).getD
          (j * img.height.toNat + (img.height.toNat - 1 - i)) black =
        buf.getD (i * img.width.toNat + j) black) ∧
    (∀ p0 p1 p2 p3 : Pixel,
      bmp_rotate_right (some ⟨2, 2, some [p0, p1, p2, p3]⟩) =
        some ⟨2, 2, some [p2, p0, p3, p1]⟩) := by
  refine ⟨by simp [bmp_rotate_right, hdata], ?_, ?_⟩
  · intro i j hi hj
    exact rotate_data_getD _ _ buf i j hi hj
  · intro p0 p1 p2 p3
    rfl

/-- Witness for rotate_right_spec on a 1 by 2 image. -/
theorem rotate_right_spec_witness :
    bmp_rotate_right (some ⟨1, 2, some [⟨1, 1, 1⟩, ⟨2, 2, 2⟩]⟩) =
      some ⟨2, 1, some (rotate_data 1 2 [⟨1, 1, 1⟩, ⟨2, 2, 2⟩])⟩ ∧
    (∀ i j, i < 2 → j < 1 →
      (rotate_data 1 2 [(⟨1, 1, 1⟩ : Pixel), ⟨2, 2, 2⟩]).getD
          (j * 2 + (2 - 1 - i)) black =
        [(⟨1, 1, 1⟩ : Pixel), ⟨2, 2, 2⟩].getD (i * 1 + j) black) ∧
    (∀ p0 p1 p2 p3 : Pixel,
      bmp_rotate_right (some ⟨2, 2, some [p0, p1, p2, p3]⟩) =
        some ⟨2, 2, some [p2, p0, p3, p1]⟩) :=
  rotate_right_spec ⟨1, 2, some [⟨1, 1, 1⟩, ⟨2, 2, 2⟩]⟩
    [⟨1, 1, 1⟩, ⟨2, 2, 2⟩] rfl

/-- Rotating a W by H buffer twice reverses the flat buffer (a 180 degree
rotation of a row-major raster is exactly list reversal). -/
theorem rotate_data_twice (W H : Nat) (buf : List Pixel) (hW : 0 < W)
    (hH : 0 < H) (hlen : buf.length = W * H) :
    rotate_data H W (rotate_data W H buf) = buf.reverse := by
  apply List.ext_getElem
  · rw [rotate_data_length, List.length_reverse, hlen]
  · intro k h1 h2
    have hk : k < W * H := by rw [rotate_data_length] at h1; exact h1
    have hdiv : k / W < H := (Nat.div_lt_iff_lt_mul hW).mpr
      (by rw [Nat.mul_comm]; exact hk)
    have hmod : k % W < W := Nat.mod_lt k hW
    have h0 := Nat.div_add_mod k W
    obtain ⟨q, hq⟩ : ∃ q, k / W = q := ⟨k / W, rfl⟩
    obtain ⟨r, hr⟩ : ∃ r, k % W = r := ⟨k % W, rfl⟩
    rw [hq] at hdiv
    rw [hq, hr] at h0
    rw [hr] at hmod
    have hcm : q * W = W * q := Nat.mul_comm q W
    have houter : (rotate_data H W (rotate_data W H buf)).getD k black =
        (rotate_data W H buf).getD ((W - 1 - r) * H + q) black := by
      have h9 := rotate_data_getD H W (rotate_data W H buf) (W - 1 - r)
        q (by omega) hdiv
      rw [show q * W + (W - 1 - (W - 1 - r)) = k from by omega] at h9
      exact h9
    have hinner : (rotate_data W H buf).getD ((W - 1 - r) * H + q)
        black = buf.getD ((H - 1 - q) * W + (W - 1 - r)) black := by
      have h10 := rotate_data_getD W H buf (H - 1 - q) (W - 1 - r)
        (by omega) (by omega)
      rw [show (W - 1 - r) * H + (H - 1 - (H - 1 - q)) =
        (W - 1 - r) * H + q from by omega] at h10
      exact h10
    have hfinal : (H - 1 - q) * W + (W - 1 - r) = W * H - 1 - k := by
      have e2 : (H - 1 - q) * W + (q + 1) * W = H * W := by
        rw [← Nat.add_mul]
        have e4 : H - 1 - q + (q + 1) = H := by omega
        rw [e4]
      have e3 : (q + 1) * W = q * W + W := by
        rw [Nat.add_mul, Nat.one_mul]
      have hcc : W * H = H * W := Nat.mul_comm W H
      omega
    have hrev : buf.reverse[k] = buf.getD (W * H - 1 - k) black := by
      have hb : W * H - 1 - k < buf.length := by
        have h5 : 0 < W * H := Nat.mul_pos hW hH
        omega
      have hidx : buf.length - 1 - k = W * H - 1 - k := by omega
      rw [List.getElem_reverse, List.getD_eq_getElem buf black hb]
      simp only [hidx]
    rw [← List.getD_eq_getElem _ black h1, hrev, houter, hinner, hfinal]

/-- Claim C5: four clockwise rotations restore the image exactly: same width,
same height, same pixel buffer. -/
theorem rotate_right_four_id (img : BMPImage) (buf : List Pixel)
    (hdata : img.data = some buf) (hw : 0 < img.width) (hh : 0 < img.height)
    (hlen : buf.length = img.width.toNat * img.height.toNat) :
    bmp_rotate_right (bmp_rotate_right (bmp_rotate_right
      (bmp_rotate_right (some img)))) = some img := by
  have hW0 : 0 < img.width.toNat := by omega
  have hH0 : 0 < img.height.toNat := by omega
  have s1 : bmp_rotate_right (some img) =
      some ⟨img.height, img.width,
        some (rotate_data img.width.toNat img.height.toNat buf)⟩ := by
    simp [bmp_rotate_right, hdata]
  have s12 : bmp_rotate_right (bmp_rotate_right (some img)) =
      some ⟨img.width, img.height, some buf.reverse⟩ := by
    rw [s1]
    show some (⟨img.width, img.height,
      some (rotate_data img.height.toNat img.width.toNat
        (rotate_data img.width.toNat img.height.toNat buf))⟩ : BMPImage) = _
    rw [rotate_data_twice img.width.toNat img.height.toNat buf hW0 hH0 hlen]
  have s34 : bmp_rotate_right (bmp_rotate_right
      (some (⟨img.width, img.height, some buf.reverse⟩ : BMPImage))) =
      some ⟨img.width, img.height, some buf.reverse.reverse⟩ := by
    show bmp_rotate_right (some (⟨img.height, img.width,
      some (rotate_data img.width.toNat img.height.toNat buf.reverse)⟩ :
        BMPImage)) = _
    show some (⟨img.width, img.height,
      some (rotate_data img.height.toNat img.width.toNat
        (rotate_data img.width.toNat img.height.toNat buf.reverse))⟩ :
          BMPImage) = _
    rw [rotate_data_twice img.width.toNat img.height.toNat buf.reverse hW0 hH0
      (by rw [List.length_reverse]; exact hlen)]
  calc bmp_rotate_right (bmp_rotate_right (bmp_rotate_right
        (bmp_rotate_right (some img))))
      = bmp_rotate_right (bmp_rotate_right
          (some ⟨img.width, img.height, some buf.reverse⟩)) := by rw [s12]
    _ = some ⟨img.width, img.height, some buf.reverse.reverse⟩ := s34
    _ = some img := by
        rw [List.reverse_reverse]
        show some (⟨img.width, img.height, some buf⟩ : BMPImage) = some img
        rw [← hdata]

/-- Witness for rotate_right_four_id on a concrete 1 by 2 image. -/
theorem rotate_right_four_id_witness :
    bmp_rotate_right (bmp_rotate_right (bmp_rotate_right (bmp_rotate_right
      (some ⟨1, 2, some [⟨1, 1, 1⟩, ⟨2, 2, 2⟩]⟩)))) =
      some ⟨1, 2, some [⟨1, 1, 1⟩, ⟨2, 2, 2⟩]⟩ :=
  rotate_right_four_id ⟨1, 2, some [⟨1, 1, 1⟩, ⟨2, 2, 2⟩]⟩
    [⟨1, 1, 1⟩, ⟨2, 2, 2⟩] rfl (by decide) (by decide) (by decide)

/-! Claim C1: the save and load round trip.  The proof works byte by byte:
the 54 header bytes written by bmp_save parse back to the same magic, bit
count, offset, width and height, and every pixel byte of the padded rows is
read back from the position bmp_load computes for it. -/

/-- Length of an appendBlocks stream of n blocks of uniform length L. -/
theorem appendBlocks_length {α : Type} (B : Nat → List α) (L : Nat)
    (hB : ∀ m, (B m).length = L) : ∀ n, (appendBlocks B n).length = n * L := by
  intro n
  induction n with
  | zero => rw [Nat.zero_mul]; rfl
  | succ m ih =>
    show (appendBlocks B m ++ B m).length = (m + 1) * L
    rw [List.length_append, ih, hB, Nat.add_mul, Nat.one_mul]

/-- Element r of block i inside an appendBlocks stream of uniform blocks. -/
theorem appendBlocks_getD {α : Type} (B : Nat → List α) (L : Nat)
    (hB : ∀ m, (B m).length = L) (d : α) :
    ∀ n i r, i < n → r < L →
      (appendBlocks B n).getD (i * L + r) d = (B i).getD r d := by
  intro n
  induction n with
  | zero => intro i r hi hr; omega
  | succ m ih =>
    intro i r hi hr
    show (appendBlocks B m ++ B m).getD (i * L + r) d = (B i).getD r d
    have hal : (appendBlocks B m).length = m * L := appendBlocks_length B L hB m
    by_cases hcase : i = m
    · subst hcase
      rw [List.getD_append_right _ _ _ _ (by rw [hal]; omega), hal,
        show i * L + r - i * L = r from by omega]
    · have hb : i * L + r < (appendBlocks B m).length := by
        rw [hal]
        have h6 : (i + 1) * L ≤ m * L := Nat.mul_le_mul_right L (by omega)
        have h7 : (i + 1) * L = i * L + L := by rw [Nat.add_mul, Nat.one_mul]
        omega
      rw [List.getD_append _ _ _ _ hb]
      exact ih i r (by omega) hr

/-- A read scanline has exactly W pixels. -/
theorem readRow_length (bs : List Nat) (pos W : Nat) :
    (readRow bs pos W).length = W := by
  unfold readRow
  rw [appendBlocks_length (fun j => [readPixel bs (pos + 3 * j)]) 1
    (fun _ => rfl) W, Nat.mul_one]

/-- Pixel j of a read scanline comes from byte position pos + 3 * j. -/
theorem readRow_getD (bs : List Nat) (pos W j : Nat) (hj : j < W) :
    (readRow bs pos W).getD j black = readPixel bs (pos + 3 * j) := by
  unfold readRow
  have h1 := appendBlocks_getD (fun j2 => [readPixel bs (pos + 3 * j2)]) 1
    (fun _ => rfl) black W j 0 hj (by omega)
  rw [show j * 1 + 0 = j from by omega] at h1
  rw [h1]
  rfl

/-- The loaded buffer has H * W pixels. -/
theorem bmp_load_data_length (bs : List Nat) (offset W H pad : Nat) :
    (bmp_load_data bs offset W H pad).length = H * W := by
  unfold bmp_load_data
  rw [appendBlocks_length
    (fun i => readRow bs (offset + i * (3 * W + pad)) W) W
    (fun m => readRow_length ..) H]

/-- The 54 header bytes of bmp_save, written out byte by byte. -/
theorem save_headers_explicit (image : BMPImage) :
    bmp_save_headers image = [66, 77,
      (54 + save_image_size image) % 4294967296 % 256,
      (54 + save_image_size image) % 4294967296 / 256 % 256,
      (54 + save_image_size image) % 4294967296 / 65536 % 256,
      (54 + save_image_size image) % 4294967296 / 16777216 % 256,
      0, 0, 0, 0,
      54, 0, 0, 0,
      40, 0, 0, 0,
      (image.width % 4294967296).toNat % 256,
      (image.width % 4294967296).toNat / 256 % 256,
      (image.width % 4294967296).toNat / 65536 % 256,
      (image.width % 4294967296).toNat / 16777216 % 256,
      (image.height % 4294967296).toNat % 256,
      (image.height % 4294967296).toNat / 256 % 256,
      (image.height % 4294967296).toNat / 65536 % 256,
      (image.height % 4294967296).toNat / 16777216 % 256,
      1, 0, 24, 0,
      0, 0, 0, 0,
      save_image_size image % 256,
      save_image_size image / 256 % 256,
      save_image_size image / 65536 % 256,
      save_image_size image / 16777216 % 256,
      19, 11, 0, 0,
      19, 11, 0, 0,
      0, 0, 0, 0,
      0, 0, 0, 0] := rfl

/-- The headers occupy exactly 54 bytes. -/
theorem save_headers_length (image : BMPImage) :
    (bmp_save_headers image).length = 54 := by
  rw [save_headers_explicit]
  rfl

/-- Bytes below offset 54 of a saved stream come from the headers. -/
theorem save_byte_lt54 (image : BMPImage) (k : Nat) (hk : k < 54) :
    (bmp_save image).getD k 0 = (bmp_save_headers image).getD k 0 := by
  unfold bmp_save
  rw [List.getD_append _ _ _ _ (by rw [save_headers_length]; omega)]

/-- Bytes at offsets 54 + t of a saved stream live in the pixel data part. -/
theorem save_getD_payload (image : BMPImage) (t : Nat) :
    (bmp_save image).getD (54 + t) 0 =
      (bmp_save_pixel_data (image.data.getD []) image.width.toNat
        (calculate_padding image.width).toNat image.height.toNat).getD t 0 := by
  unfold bmp_save
  rw [List.getD_append_right _ _ _ _ (by rw [save_headers_length]; omega),
    save_headers_length, show 54 + t - 54 = t from by omega]

/-- Byte c of pixel (row i, column j) inside the padded pixel data stream. -/
theorem save_pixel_byte (buf : List Pixel) (W P H i j c : Nat)
    (hi : i < H) (hj : j < W) (hc : c < 3) :
    (bmp_save_pixel_data buf W P H).getD (i * (3 * W + P) + (3 * j + c)) 0 =
      (pixelBytes (buf.getD (i * W + j) black)).getD c 0 := by
  have hrowlen : ∀ m, (bmp_save_row buf W P m).length = 3 * W + P := by
    intro m
    unfold bmp_save_row
    rw [List.length_append,
      appendBlocks_length (fun j2 => pixelBytes (buf.getD (m * W + j2) black))
        3 (fun _ => rfl) W,
      List.length_replicate]
    omega
  unfold bmp_save_pixel_data
  rw [appendBlocks_getD (fun i2 => bmp_save_row buf W P i2) (3 * W + P)
    hrowlen 0 H i (3 * j + c) hi (by omega)]
  unfold bmp_save_row
  rw [List.getD_append _ _ _ _ (by
    rw [appendBlocks_length (fun j2 => pixelBytes (buf.getD (i * W + j2) black))
      3 (fun _ => rfl) W]
    omega)]
  rw [show 3 * j + c = j * 3 + c from by omega]
  rw [appendBlocks_getD (fun j2 => pixelBytes (buf.getD (i * W + j2) black)) 3
    (fun _ => rfl) 0 W j c hj hc]

/-- The width field written at byte offset 18 parses back to the width. -/
theorem save_rd32i_width (image : BMPImage) (h0 : 0 ≤ image.width)
    (hb : image.width < 2147483648) : rd32i (bmp_save image) 18 = image.width := by
  have hn : (image.width % 4294967296).toNat = image.width.toNat := by
    rw [Int.emod_eq_of_lt h0 (by omega)]
  have e18 : (bmp_save image).getD 18 0 =
      (image.width % 4294967296).toNat % 256 := by
    rw [save_byte_lt54 image 18 (by omega), save_headers_explicit]
    rfl
  have e19 : (bmp_save image).getD (18 + 1) 0 =
      (image.width % 4294967296).toNat / 256 % 256 := by
    rw [save_byte_lt54 image (18 + 1) (by omega), save_headers_explicit]
    rfl
  have e20 : (bmp_save image).getD (18 + 2) 0 =
      (image.width % 4294967296).toNat / 65536 % 256 := by
    rw [save_byte_lt54 image (18 + 2) (by omega), save_headers_explicit]
    rfl
  have e21 : (bmp_save image).getD (18 + 3) 0 =
      (image.width % 4294967296).toNat / 16777216 % 256 := by
    rw [save_byte_lt54 image (18 + 3) (by omega), save_headers_explicit]
    rfl
  have hcomb : rd32 (bmp_save image) 18 = image.width.toNat := by
    unfold rd32
    rw [e18, e19, e20, e21, hn]
    omega
  simp only [rd32i, hcomb]
  split
  · omega
  · omega

/-- The height field written at byte offset 22 parses back to the height. -/
theorem save_rd32i_height (image : BMPImage) (h0 : 0 ≤ image.height)
    (hb : image.height < 2147483648) : rd32i (bmp_save image) 22 = image.height := by
  have hn : (image.height % 4294967296).toNat = image.height.toNat := by
    rw [Int.emod_eq_of_lt h0 (by omega)]
  have e22 : (bmp_save image).getD 22 0 =
      (image.height % 4294967296).toNat % 256 := by
    rw [save_byte_lt54 image 22 (by omega), save_headers_explicit]
    rfl
  have e23 : (bmp_save image).getD (22 + 1) 0 =
      (image.height % 4294967296).toNat / 256 % 256 := by
    rw [save_byte_lt54 image (22 + 1) (by omega), save_headers_explicit]
    rfl
  have e24 : (bmp_save image).getD (22 + 2) 0 =
      (image.height % 4294967296).toNat / 65536 % 256 := by
    rw [save_byte_lt54 image (22 + 2) (by omega), save_headers_explicit]
    rfl
  have e25 : (bmp_save image).getD (22 + 3) 0 =
      (image.height % 4294967296).toNat / 16777216 % 256 := by
    rw [save_byte_lt54 image (22 + 3) (by omega), save_headers_explicit]
    rfl
  have hcomb : rd32 (bmp_save image) 22 = image.height.toNat := by
    unfold rd32
    rw [e22, e23, e24, e25, hn]
    omega
  simp only [rd32i, hcomb]
  split
  · omega
  · omega

/-- Loading the pixel rows back from a saved stream reproduces the buffer. -/
theorem load_save_data (img : BMPImage) (buf : List Pixel)
    (hdata : img.data = some buf) (hw : 0 < img.width) (hh : 0 < img.height)
    (hlen : buf.length = img.width.toNat * img.height.toNat) :
    bmp_load_data (bmp_save img) 54 img.width.toNat img.height.toNat
      (calculate_padding img.width).toNat = buf := by
  have hWpos : 0 < img.width.toNat := by omega
  apply List.ext_getElem
  · rw [bmp_load_data_length, hlen, Nat.mul_comm]
  · intro k h1 h2
    have hk : k < img.height.toNat * img.width.toNat := by
      rw [bmp_load_data_length] at h1; exact h1
    have hdiv : k / img.width.toNat < img.height.toNat :=
      (Nat.div_lt_iff_lt_mul hWpos).mpr hk
    have hmod : k % img.width.toNat < img.width.toNat := Nat.mod_lt k hWpos
    have h0 := Nat.div_add_mod k img.width.toNat
    obtain ⟨q, hq⟩ : ∃ q, k / img.width.toNat = q := ⟨_, rfl⟩
    obtain ⟨r, hr⟩ : ∃ r, k % img.width.toNat = r := ⟨_, rfl⟩
    rw [hq] at hdiv
    rw [hq, hr] at h0
    rw [hr] at hmod
    have hcm : q * img.width.toNat = img.width.toNat * q :=
      Nat.mul_comm q img.width.toNat
    have key : ∀ c, c < 3 →
        (bmp_save img).getD (54 + q * (3 * img.width.toNat +
          (calculate_padding img.width).toNat) + 3 * r + c) 0 =
        (pixelBytes (buf.getD (q * img.width.toNat + r) black)).getD c 0 := by
      intro c hc
      have hp1 := save_getD_payload img
        (q * (3 * img.width.toNat + (calculate_padding img.width).toNat) +
          (3 * r + c))
      rw [show 54 + q * (3 * img.width.toNat +
          (calculate_padding img.width).toNat) + 3 * r + c =
        54 + (q * (3 * img.width.toNat +
          (calculate_padding img.width).toNat) + (3 * r + c)) from by omega,
        hp1, hdata]
      exact save_pixel_byte buf img.width.toNat
        (calculate_padding img.width).toNat img.height.toNat q r c hdiv hmod hc
    have hpix : readPixel (bmp_save img)
        (54 + q * (3 * img.width.toNat + (calculate_padding img.width).toNat)
          + 3 * r) = buf.getD (q * img.width.toNat + r) black := by
      have k0 := key 0 (by omega)
      have k1 := key 1 (by omega)
      have k2 := key 2 (by omega)
      rcases hPdef : buf.getD (q * img.width.toNat + r) black with ⟨pb, pg, pr2⟩
      rw [hPdef] at k0 k1 k2
      simp only [pixelBytes, List.getD_cons_zero, List.getD_cons_succ] at k0 k1 k2
      rw [show 54 + q * (3 * img.width.toNat +
          (calculate_padding img.width).toNat) + 3 * r + 0 =
        54 + q * (3 * img.width.toNat +
          (calculate_padding img.width).toNat) + 3 * r from by omega] at k0
      unfold readPixel
      rw [k0, k1, k2]
    rw [← List.getD_eq_getElem _ black h1, ← List.getD_eq_getElem _ black h2]
    unfold bmp_load_data
    have hstep := appendBlocks_getD
      (fun i => readRow (bmp_save img) (54 + i * (3 * img.width.toNat +
        (calculate_padding img.width).toNat)) img.width.toNat)
      img.width.toNat (fun m => readRow_length ..) black
      img.height.toNat q r hdiv hmod
    rw [show q * img.width.toNat + r = k from by omega] at hstep
    rw [hstep, readRow_getD _ _ _ r hmod, hpix,
      show q * img.width.toNat + r = k from by omega]

/-- Claim C1: encoding a valid image with bmp_save and decoding the produced
bytes with bmp_load returns an image with the same width, the same height and
a pixel-for-pixel identical buffer.  The width and height bounds are the
int32 range of the C fields. -/
theorem save_load_roundtrip (img : BMPImage) (buf : List Pixel)
    (hdata : img.data = some buf) (hw : 0 < img.width) (hh : 0 < img.height)
    (hwb : img.width < 2147483648) (hhb : img.height < 2147483648)
    (hlen : buf.length = img.width.toNat * img.height.toNat) :
    bmp_load (some (bmp_save img)) =
      LoadResult.returned (some img) BMPError.BMP_SUCCESS := by
  have e0 : (bmp_save img).getD 0 0 = 66 := by
    rw [save_byte_lt54 img 0 (by omega), save_headers_explicit]
    rfl
  have e1 : (bmp_save img).getD (0 + 1) 0 = 77 := by
    rw [save_byte_lt54 img (0 + 1) (by omega), save_headers_explicit]
    rfl
  have hmagic : rd16 (bmp_save img) 0 = 19778 := by
    unfold rd16
    rw [e0, e1]
  have e28 : (bmp_save img).getD 28 0 = 24 := by
    rw [save_byte_lt54 img 28 (by omega), save_headers_explicit]
    rfl
  have e29 : (bmp_save img).getD (28 + 1) 0 = 0 := by
    rw [save_byte_lt54 img (28 + 1) (by omega), save_headers_explicit]
    rfl
  have hbit : rd16 (bmp_save img) 28 = 24 := by
    unfold rd16
    rw [e28, e29]
  have e10 : (bmp_save img).getD 10 0 = 54 := by
    rw [save_byte_lt54 img 10 (by omega), save_headers_explicit]
    rfl
  have e11 : (bmp_save img).getD (10 + 1) 0 = 0 := by
    rw [save_byte_lt54 img (10 + 1) (by omega), save_headers_explicit]
    rfl
  have e12 : (bmp_save img).getD (10 + 2) 0 = 0 := by
    rw [save_byte_lt54 img (10 + 2) (by omega), save_headers_explicit]
    rfl
  have e13 : (bmp_save img).getD (10 + 3) 0 = 0 := by
    rw [save_byte_lt54 img (10 + 3) (by omega), save_headers_explicit]
    rfl
  have hoff : rd32 (bmp_save img) 10 = 54 := by
    unfold rd32
    rw [e10, e11, e12, e13]
  have hwidth := save_rd32i_width img (by omega) hwb
  have hheight := save_rd32i_height img (by omega) hhb
  simp only [bmp_load]
  rw [if_neg (by rw [hmagic, hbit]; simp)]
  rw [hwidth, hheight, hoff, abs_of_pos hh]
  rw [load_save_data img buf hdata hw hh hlen]
  rw [← hdata]

/-- Witness for save_load_roundtrip on a concrete 1 by 1 image. -/
theorem save_load_roundtrip_witness :
    bmp_load (some (bmp_save ⟨1, 1, some [⟨10, 20, 30⟩]⟩)) =
      LoadResult.returned (some ⟨1, 1, some [⟨10, 20, 30⟩]⟩)
        BMPError.BMP_SUCCESS :=
  save_load_roundtrip ⟨1, 1, some [⟨10, 20, 30⟩]⟩ [⟨10, 20, 30⟩] rfl
    (by decide) (by decide) (by decide) (by decide) (by decide)
